import Mathlib

/-
Shallow embedding of the Job lifecycle core of Jolt (src/Jolt/Core/JobSystem.h).

The per-job shared state consists of three atomic words:
  mNumDependencies : uint32   (dependency counter, multiplexed with two sentinels)
  mBarrier         : intptr_t (0 = no barrier, a real Barrier pointer, or all-ones
                               sentinel once the job finished)
  mReferenceCount  : uint32   (number of live JobHandles)

We model machine integers as Nat with explicit reduction mod 2 ^ 32 (respectively
2 ^ 64 for pointer-sized values) at the points where the C++ code can wrap.
Barrier pointers are modelled as plain Nat addresses: 0 is the null pointer and
2 ^ 64 - 1 is the all-ones cBarrierDoneState sentinel.

The body of Job::Execute is embedded twice, at two granularities:
  * Execute            : the straight-line body as one sequential function,
                         emitting the list of observable events in program order
                         (JobSystem.h lines 183-216);
  * Step / Trace       : the same body split at its atomic operations
                         (the claim CAS, the barrier freeze CAS loop, the done
                         CAS, the callback), interleavable with SetBarrier and
                         with the dependency-counter operations, so that
                         multi-call and cross-operation invariants can be stated.
The barrier freeze loop (lines 198-203) retries until its CAS succeeds; its
observable effect is that of the final successful iteration, which reads the
slot and replaces it by cBarrierDoneState, so it is modelled as one atomic
read-and-replace step.

The bodies of Job::AddDependency, Job::RemoveDependency and
Job::RemoveDependencyAndQueue live in Core/JobSystem.inl, which is not part of
the sources; they are modelled from the spec where needed and marked as such.
-/

/-- Value of mNumDependencies when the job is executing (JobSystem.h line 224). -/
def cExecutingState : Nat := 0xe0e0e0e0

/-- Value of mNumDependencies when the job is done executing (JobSystem.h line 225). -/
def cDoneState : Nat := 0xd0d0d0d0

/-- Value of the mBarrier slot once the barrier has been triggered: all bits set
in an intptr_t, modelled at pointer width 64 (JobSystem.h line 227). -/
def cBarrierDoneState : Nat := 2 ^ 64 - 1

/-- Program counter inside the body of Job::Execute, used by the fine-grained
step relation to record how far a successful Execute call has progressed.
idle means no Execute body is past its claim CAS (which is the only way a body
can be in flight, since the claim CAS succeeds at most once). -/
inductive ExecPhase
  | idle
  | ranPayload
  | froze (captured : Nat)
  | marked (captured : Nat)
deriving DecidableEq

/-- The mutable per-job state (JobSystem.h lines 234-238; profiling metadata
has no behavioral effect and is omitted). -/
structure JobState where
  mNumDependencies : Nat
  mBarrier : Nat
  mReferenceCount : Nat
  phase : ExecPhase
deriving DecidableEq

/-- The Job constructor (JobSystem.h lines 142-152): dependency counter set from
the uint32 argument, barrier slot 0, reference count 0. -/
def mkJob (inNumDependencies : Nat) : JobState :=
  { mNumDependencies := inNumDependencies % 2 ^ 32
    mBarrier := 0
    mReferenceCount := 0
    phase := ExecPhase.idle }

/-- Job::CanBeExecuted (JobSystem.h line 219): the counter equals 0. -/
def JobState.CanBeExecuted (s : JobState) : Bool := s.mNumDependencies == 0

/-- Job::IsDone (JobSystem.h line 222): the counter equals cDoneState. -/
def JobState.IsDone (s : JobState) : Bool := s.mNumDependencies == cDoneState

/-- Job::SetBarrier (JobSystem.h lines 173-180): compare-and-swap of the barrier
slot from 0 to the given pointer; on failure the slot is left unchanged and
false is returned. -/
def JobState.SetBarrier (s : JobState) (inBarrier : Nat) : Bool × JobState :=
  if s.mBarrier = 0 then (true, { s with mBarrier := inBarrier }) else (false, s)

/-- Observable events of the job core: the payload running, the barrier slot
being frozen (recording the captured value), the done CAS, the
Barrier::OnJobFinished callback, the value observed by a failing Execute,
and a job being handed to the queue. -/
inductive Ev
  | payloadRun
  | freeze (captured : Nat)
  | markDone
  | notify (b : Nat)
  | execObserved (state : Nat)
  | queued
deriving DecidableEq

/-- Job::Execute as the straight-line sequential body (JobSystem.h lines
183-216): claim CAS from 0 to cExecutingState (returning the observed counter
on failure), run the payload, atomically capture the barrier slot and replace
it by cBarrierDoneState, CAS the counter from cExecutingState to cDoneState,
then call OnJobFinished if the captured slot value was nonzero.  Returns the
return value, the events in program order, and the final state. -/
def JobState.Execute (s : JobState) : Nat × List Ev × JobState :=
  if s.mNumDependencies = 0 then
    let s1 : JobState := { s with mNumDependencies := cExecutingState }
    let barrier := s1.mBarrier
    let s2 : JobState := { s1 with mBarrier := cBarrierDoneState }
    let s3 : JobState :=
      { s2 with mNumDependencies :=
          if s2.mNumDependencies = cExecutingState then cDoneState
          else s2.mNumDependencies }
    (cDoneState,
     [Ev.payloadRun, Ev.freeze barrier, Ev.markDone]
       ++ (if barrier ≠ 0 then [Ev.notify barrier] else []),
     s3)
  else
    (s.mNumDependencies, [], s)

/-- Operations on the shared job state, with the body of Execute split at its
atomic operations. -/
inductive JOp
  | execEnter
  | execFreeze
  | execMarkDone
  | execNotify
  | setBarrier (b : Nat)
  | addDependency (n : Nat)
  | removeDependency (n : Nat)

/-- One atomic operation on the shared job state.  The four exec micro-steps
are the atomic operations of the Execute body (JobSystem.h lines 183-216); only
a body whose claim CAS succeeded can run the later steps, which the phase field
records.  setBarrier is JobSystem.h lines 173-180, called by Barrier::AddJob
with a real (nonzero, non-sentinel) Barrier pointer.  The dependency-counter
operations are modelled from the spec (their bodies are in Core/JobSystem.inl,
not in the sources): AddDependency atomically adds its argument and
RemoveDependency atomically subtracts it, and both carry the documented
preconditions that the caller only touches a job whose counter is still a
positive dependency count (spec 4.1: calling them once the counter has reached
zero or a sentinel is a contract violation), counts staying below the first
sentinel value. -/
inductive Step : JobState → JOp → List Ev → JobState → Prop
  | execEnterOk {s : JobState} (h : s.mNumDependencies = 0) :
      Step s JOp.execEnter [Ev.payloadRun]
        { s with mNumDependencies := cExecutingState, phase := ExecPhase.ranPayload }
  | execEnterFail {s : JobState} (h : s.mNumDependencies ≠ 0) :
      Step s JOp.execEnter [Ev.execObserved s.mNumDependencies] s
  | execFreeze {s : JobState} (h : s.phase = ExecPhase.ranPayload) :
      Step s JOp.execFreeze [Ev.freeze s.mBarrier]
        { s with mBarrier := cBarrierDoneState, phase := ExecPhase.froze s.mBarrier }
  | execMarkDone {s : JobState} {c : Nat} (h : s.phase = ExecPhase.froze c) :
      Step s JOp.execMarkDone [Ev.markDone]
        { s with
            mNumDependencies :=
              if s.mNumDependencies = cExecutingState then cDoneState
              else s.mNumDependencies
            phase := ExecPhase.marked c }
  | execNotify {s : JobState} {c : Nat} (h : s.phase = ExecPhase.marked c) :
      Step s JOp.execNotify (if c ≠ 0 then [Ev.notify c] else [])
        { s with phase := ExecPhase.idle }
  | setBarrierOk {s : JobState} {b : Nat} (hb0 : 0 < b) (hbd : b < cBarrierDoneState)
      (h : s.mBarrier = 0) :
      Step s (JOp.setBarrier b) [] { s with mBarrier := b }
  | setBarrierFail {s : JobState} {b : Nat} (hb0 : 0 < b) (hbd : b < cBarrierDoneState)
      (h : s.mBarrier ≠ 0) :
      Step s (JOp.setBarrier b) [] s
  | addDep {s : JobState} {n : Nat} (hpos : 0 < s.mNumDependencies)
      (hlt : s.mNumDependencies + n < cDoneState) :
      Step s (JOp.addDependency n) []
        { s with mNumDependencies := s.mNumDependencies + n }
  | removeDep {s : JobState} {n : Nat} (hn : 0 < n) (hle : n ≤ s.mNumDependencies)
      (hlt : s.mNumDependencies < cDoneState) :
      Step s (JOp.removeDependency n)
        (if s.mNumDependencies - n = 0 then [Ev.queued] else [])
        { s with mNumDependencies := s.mNumDependencies - n }

/-- Finitely many atomic operations in sequence, accumulating their events. -/
inductive Trace : JobState → List Ev → JobState → Prop
  | refl (s : JobState) : Trace s [] s
  | step {s s1 s2 : JobState} {op : JOp} {evs tl : List Ev} :
      Step s op evs s1 → Trace s1 tl s2 → Trace s (evs ++ tl) s2

/-- Modelled from the spec: the body of Job::RemoveDependency lives in
Core/JobSystem.inl, which is not among the sources.  Spec 4.1: an atomic
fetch-and-subtract on the uint32 counter followed by a check that the new
value is zero; the call reports the job runnable exactly when the new value
is zero.  Subtraction is uint32 subtraction, wrapping mod 2 ^ 32. -/
def removeDependencyFn (deps n : Nat) : Bool × Nat :=
  let r := (deps + (2 ^ 32 - n % 2 ^ 32)) % 2 ^ 32
  (r == 0, r)

/-- A serialized sequence of RemoveDependencyAndQueue calls on one job,
returning the final counter and the number of calls that enqueued the job. -/
def runRemoveCalls : Nat → List Nat → Nat × Nat
  | d, [] => (d, 0)
  | d, n :: t =>
    let r := removeDependencyFn d n
    let rest := runRemoveCalls r.2 t
    (rest.1, (if r.1 = true then 1 else 0) + rest.2)

/-- Validity of a serialized sequence of RemoveDependency calls under the
documented contract (spec 4.1): each call removes at least one dependency,
never more than are outstanding, and is only made while the counter still
holds a dependency count (below the first sentinel value). -/
def validRemoveCalls : Nat → List Nat → Bool
  | _, [] => true
  | d, n :: t =>
    decide (0 < n) && decide (n ≤ d) && decide (d < cDoneState)
      && validRemoveCalls (d - n) t

/-- Modelled from the spec: the body of Job::AddDependency lives in
Core/JobSystem.inl, which is not among the sources.  Spec 4.1: an atomic add
of the argument to the uint32 counter. -/
def addDependencyFn (s : JobState) (n : Nat) : JobState :=
  { s with mNumDependencies := (s.mNumDependencies + n) % 2 ^ 32 }

/-- Modelled from the spec: RemoveDependencyAndQueue (Core/JobSystem.inl, not
among the sources) decrements via RemoveDependency and hands the job to the
queue exactly when the counter reached zero.  The Bool records whether the
job was enqueued. -/
def removeDependencyAndQueueFn (s : JobState) (n : Nat) : JobState × Bool :=
  let r := removeDependencyFn s.mNumDependencies n
  ({ s with mNumDependencies := r.2 }, r.1)

/-- A JobHandle contains either no job or a job (JobSystem.h lines 49-89).
Modelled from the spec where Core/Reference.h is concerned: Ref stores a
pointer which GetPtr returns, null for the empty handle; the handle is
modelled by value, an Option standing for the nullable pointer. -/
def JobHandle : Type := Option JobState

/-- JobHandle::IsValid (JobSystem.h line 65): GetPtr() != nullptr. -/
def JobHandle.IsValid (h : JobHandle) : Bool := h.isSome

/-- JobHandle::IsDone (JobSystem.h line 68): GetPtr() != nullptr &&
GetPtr()->IsDone(), with short-circuit evaluation. -/
def JobHandle.IsDone : JobHandle → Bool
  | none => false
  | some j => j.IsDone

/-- JobHandle::AddDependency (JobSystem.h line 71): GetPtr()->AddDependency
with no null check; none models the null dereference on an empty handle. -/
def JobHandle.AddDependency : JobHandle → Nat → Option JobState
  | none, _ => none
  | some j, n => some (addDependencyFn j n)

/-- JobHandle::RemoveDependency (JobSystem.h line 75):
GetPtr()->RemoveDependencyAndQueue with no null check; none models the null
dereference on an empty handle. -/
def JobHandle.RemoveDependency : JobHandle → Nat → Option (JobState × Bool)
  | none, _ => none
  | some j, n => some (removeDependencyAndQueueFn j n)

/-- The two reference-counting operations of Job (JobSystem.h lines 158-159). -/
inductive RefOp
  | addRef
  | release
deriving DecidableEq

/-- One reference-counting operation on (counter, number of FreeJob calls):
AddRef is ++mReferenceCount, Release is (--mReferenceCount == 0) triggering
FreeJob, both on a uint32 counter wrapping mod 2 ^ 32
(JobSystem.h lines 158-159). -/
def refStep (cf : Nat × Nat) (op : RefOp) : Nat × Nat :=
  match op with
  | RefOp.addRef => ((cf.1 + 1) % 2 ^ 32, cf.2)
  | RefOp.release =>
    ((cf.1 + (2 ^ 32 - 1)) % 2 ^ 32,
     if (cf.1 + (2 ^ 32 - 1)) % 2 ^ 32 = 0 then cf.2 + 1 else cf.2)

/-- A serialized sequence of AddRef and Release calls starting from reference
count c with f FreeJob calls so far. -/
def runRefOps (c f : Nat) (ops : List RefOp) : Nat × Nat :=
  ops.foldl refStep (c, f)

/-- Job lifecycle phase as seen by the scheduler collaborator: waiting on
dependencies, sitting in the queue, being executed by a worker, finished. -/
inductive LPhase
  | waiting (n : Nat)
  | queued
  | executing
  | done
deriving DecidableEq

/-- Modelled from the spec: ownership state of one job across the whole
system (spec 5, Lifetime/ownership).  The JobSystem implementation holding
the queue and the workers is not among the sources; handles counts the live
JobHandles and queueRef records the reference the scheduler collaborator
holds from the moment the job is enqueued until after it has executed. -/
structure LifeState where
  phase : LPhase
  handles : Nat
  queueRef : Bool
deriving DecidableEq

/-- The value of mReferenceCount: one unit per live handle plus one for the
queue or the executing worker. -/
def refCount (s : LifeState) : Nat := s.handles + (if s.queueRef then 1 else 0)

/-- Events of the lifecycle protocol. -/
inductive LEv
  | freeJob
  | queueJob
deriving DecidableEq

/-- Modelled from the spec: JobSystem::CreateJob (spec 4.1 Create) mints the
first handle; a job created with zero dependencies is enqueued as part of the
same creation step, the queue taking its own reference. -/
def lifeInit (n : Nat) : LifeState :=
  if n = 0 then { phase := LPhase.queued, handles := 1, queueRef := true }
  else { phase := LPhase.waiting n, handles := 1, queueRef := false }

/-- Modelled from the spec: one step of the system-wide job lifecycle
protocol (spec 4.1, 5, 6).  Copying a handle increments the reference count;
releasing one decrements it, calling FreeJob when the count reaches zero
(JobSystem.h lines 158-159); the documented caller discipline is that a job
still waiting on dependencies has a predecessor or creator retaining a handle
to decrement it, so the last handle of a waiting job is never dropped
(spec 4.1 preconditions, spec 5 Lifetime/ownership).  RemoveDependency on a
waiting job enqueues it when the counter reaches zero, the queue taking a
reference; a worker dequeues and executes it using the queue reference, and
the scheduler releases that reference only after Execute has returned, i.e.
with the job done (spec 6, FreeJob). -/
inductive LStep : LifeState → List LEv → LifeState → Prop
  | copyHandle {s : LifeState} (h : 1 ≤ s.handles) :
      LStep s [] { s with handles := s.handles + 1 }
  | releaseHandle {s : LifeState} (h : 1 ≤ s.handles)
      (hw : ∀ n, s.phase = LPhase.waiting n → 2 ≤ s.handles) :
      LStep s
        (if refCount { s with handles := s.handles - 1 } = 0 then [LEv.freeJob] else [])
        { s with handles := s.handles - 1 }
  | removeDep {s : LifeState} {n k : Nat} (hp : s.phase = LPhase.waiting n)
      (h1 : 0 < k) (h2 : k ≤ n) (hh : 1 ≤ s.handles) :
      LStep s (if n - k = 0 then [LEv.queueJob] else [])
        { s with
            phase := if n - k = 0 then LPhase.queued else LPhase.waiting (n - k)
            queueRef := if n - k = 0 then true else s.queueRef }
  | startExec {s : LifeState} (h : s.phase = LPhase.queued) :
      LStep s [] { s with phase := LPhase.executing }
  | finishExec {s : LifeState} (h : s.phase = LPhase.executing) :
      LStep s [] { s with phase := LPhase.done }
  | workerRelease {s : LifeState} (h : s.phase = LPhase.done) (hq : s.queueRef = true) :
      LStep s (if s.handles = 0 then [LEv.freeJob] else [])
        { s with queueRef := false }

/-- Finitely many lifecycle steps in sequence, accumulating their events. -/
inductive LTrace : LifeState → List LEv → LifeState → Prop
  | refl (s : LifeState) : LTrace s [] s
  | step {s s1 s2 : LifeState} {evs tl : List LEv} :
      LStep s evs s1 → LTrace s1 tl s2 → LTrace s (evs ++ tl) s2

theorem cDoneState_ne_zero : cDoneState ≠ 0 := by decide

theorem cExecutingState_ne_zero : cExecutingState ≠ 0 := by decide

theorem cDoneState_lt_cExecutingState : cDoneState < cExecutingState := by decide

theorem cBarrierDoneState_ne_zero : cBarrierDoneState ≠ 0 := by decide

theorem cDoneState_lt_two32 : cDoneState < 2 ^ 32 := by decide

/-- Number of payload invocations recorded in a list of events. -/
def payloadRuns (evs : List Ev) : Nat := evs.count Ev.payloadRun

@[simp] theorem payloadRuns_nil : payloadRuns [] = 0 := rfl

@[simp] theorem payloadRuns_append (l1 l2 : List Ev) :
    payloadRuns (l1 ++ l2) = payloadRuns l1 + payloadRuns l2 :=
  List.count_append ..

@[simp] theorem payloadRuns_payload : payloadRuns [Ev.payloadRun] = 1 := rfl

@[simp] theorem payloadRuns_freeze (b : Nat) : payloadRuns [Ev.freeze b] = 0 := rfl

@[simp] theorem payloadRuns_markDone : payloadRuns [Ev.markDone] = 0 := rfl

@[simp] theorem payloadRuns_notify (b : Nat) : payloadRuns [Ev.notify b] = 0 := rfl

@[simp] theorem payloadRuns_execObserved (n : Nat) : payloadRuns [Ev.execObserved n] = 0 := rfl

@[simp] theorem payloadRuns_queued : payloadRuns [Ev.queued] = 0 := rfl

@[simp] theorem payloadRuns_ite (P : Prop) [Decidable P] (l1 l2 : List Ev) :
    payloadRuns (if P then l1 else l2) = if P then payloadRuns l1 else payloadRuns l2 := by
  split <;> rfl

/-- Inductive invariant along any trace from a freshly constructed job, tying
the dependency counter, the barrier slot, the Execute program counter and the
number of payload invocations so far together. -/
def JobInv : JobState → Nat → Prop
  | ⟨d, b, _, ExecPhase.idle⟩, runs =>
      (d < cDoneState ∧ runs = 0 ∧ b ≠ cBarrierDoneState)
      ∨ (d = cDoneState ∧ runs = 1 ∧ b = cBarrierDoneState)
  | ⟨d, b, _, ExecPhase.ranPayload⟩, runs =>
      d = cExecutingState ∧ runs = 1 ∧ b ≠ cBarrierDoneState
  | ⟨d, b, _, ExecPhase.froze _⟩, runs =>
      d = cExecutingState ∧ runs = 1 ∧ b = cBarrierDoneState
  | ⟨d, b, _, ExecPhase.marked _⟩, runs =>
      d = cDoneState ∧ runs = 1 ∧ b = cBarrierDoneState

theorem step_inv {s s1 : JobState} {op : JOp} {evs : List Ev} {r : Nat}
    (hstep : Step s op evs s1) (hinv : JobInv s r) : JobInv s1 (r + payloadRuns evs) := by
  obtain ⟨d, b, rc, ph⟩ := s
  cases hstep <;> cases ph <;>
    simp_all [JobInv, cDoneState, cExecutingState, cBarrierDoneState] <;> omega

theorem trace_inv {s s2 : JobState} {tr : List Ev} {r : Nat}
    (htr : Trace s tr s2) (hinv : JobInv s r) : JobInv s2 (r + payloadRuns tr) := by
  induction htr generalizing r with
  | refl s => simpa using hinv
  | step hstep htl ih =>
      have h2 := ih (step_inv hstep hinv)
      simpa [Nat.add_assoc] using h2

theorem mkJob_inv {n : Nat} (hn : n < cDoneState) : JobInv (mkJob n) 0 := by
  have h32 : n % 2 ^ 32 ≤ n := Nat.mod_le n (2 ^ 32)
  have hbd : cBarrierDoneState ≠ 0 := cBarrierDoneState_ne_zero
  simp only [mkJob, JobInv]
  refine Or.inl ⟨lt_of_le_of_lt h32 hn, ?_, fun habs => hbd habs.symm⟩
  trivial

theorem inv_runs_le {s : JobState} {r : Nat} (hinv : JobInv s r) :
    r ≤ 1 ∧ (1 ≤ r → s.mNumDependencies = cExecutingState ∨ s.mNumDependencies = cDoneState) := by
  obtain ⟨d, b, rc, ph⟩ := s
  cases ph <;> simp_all [JobInv, cDoneState, cExecutingState]
  omega

theorem inv_zero_barrier {s : JobState} {r : Nat} (hinv : JobInv s r)
    (h0 : s.mNumDependencies = 0) : s.mBarrier ≠ cBarrierDoneState := by
  obtain ⟨d, b, rc, ph⟩ := s
  cases ph <;>
    simp_all [JobInv, cDoneState, cExecutingState, cBarrierDoneState]

/-- Claim C1: for every Job, the payload function is invoked at most once
across any number of calls to Execute: only a call that successfully
compare-and-swaps the dependency counter from 0 to cExecutingState runs the
payload, and after that the counter is never 0 again (it is cExecutingState
or cDoneState), so every later Execute call returns without running it. -/
theorem claim_C1 :
    (∀ (n : Nat) (tr : List Ev) (s1 : JobState), n < cDoneState → Trace (mkJob n) tr s1 →
      payloadRuns tr ≤ 1 ∧
        (1 ≤ payloadRuns tr →
          s1.mNumDependencies = cExecutingState ∨ s1.mNumDependencies = cDoneState))
    ∧ (∀ (s : JobState) (op : JOp) (evs : List Ev) (s1 : JobState), Step s op evs s1 →
        Ev.payloadRun ∈ evs →
        s.mNumDependencies = 0 ∧ s1.mNumDependencies = cExecutingState) := by
  constructor
  · intro n tr s1 hn htr
    have hinv := trace_inv htr (mkJob_inv hn)
    simpa using inv_runs_le hinv
  · intro s op evs s1 hstep hmem
    cases hstep with
    | execEnterOk h => exact ⟨h, rfl⟩
    | execEnterFail h => simp at hmem
    | execFreeze h => simp at hmem
    | execMarkDone h => simp at hmem
    | execNotify h => split at hmem <;> simp at hmem
    | setBarrierOk hb0 hbd h => simp at hmem
    | setBarrierFail hb0 hbd h => simp at hmem
    | addDep hpos hlt => simp at hmem
    | removeDep hn hle hlt => split at hmem <;> simp at hmem

theorem claim_C1_witness :
    payloadRuns [Ev.payloadRun] ≤ 1 ∧
      (1 ≤ payloadRuns [Ev.payloadRun] →
        (JobState.mk cExecutingState 0 0 ExecPhase.ranPayload).mNumDependencies
            = cExecutingState ∨
          (JobState.mk cExecutingState 0 0 ExecPhase.ranPayload).mNumDependencies
            = cDoneState) :=
  claim_C1.1 0 [Ev.payloadRun] ⟨cExecutingState, 0, 0, ExecPhase.ranPayload⟩ (by decide)
    (Trace.step (Step.execEnterOk (by decide)) (Trace.refl _))

/-- Claim C2: within every successful Execute call the steps occur in this
order: the payload returns, then the barrier slot is replaced with
cBarrierDoneState, then the counter transitions from cExecutingState to
cDoneState, and only after the counter is cDoneState is the captured barrier
notified via OnJobFinished, and only if the captured slot value was a real
barrier, i.e. nonzero and not cBarrierDoneState.  The event list of Execute
is exactly this program order, and on any reachable state with counter 0 the
captured value cannot be cBarrierDoneState. -/
theorem claim_C2 (n : Nat) (tr : List Ev) (s : JobState)
    (hn : n < cDoneState) (htr : Trace (mkJob n) tr s) (h0 : s.mNumDependencies = 0) :
    s.Execute.2.1 =
      [Ev.payloadRun, Ev.freeze s.mBarrier, Ev.markDone]
        ++ (if s.mBarrier ≠ 0 then [Ev.notify s.mBarrier] else [])
    ∧ s.mBarrier ≠ cBarrierDoneState
    ∧ s.Execute.2.2.mNumDependencies = cDoneState
    ∧ s.Execute.2.2.mBarrier = cBarrierDoneState
    ∧ ((∃ b, Ev.notify b ∈ s.Execute.2.1) ↔
        (s.mBarrier ≠ 0 ∧ s.mBarrier ≠ cBarrierDoneState)) := by
  have hinv := trace_inv htr (mkJob_inv hn)
  have hb := inv_zero_barrier hinv h0
  have hExec : s.Execute =
      (cDoneState,
       [Ev.payloadRun, Ev.freeze s.mBarrier, Ev.markDone]
         ++ (if s.mBarrier ≠ 0 then [Ev.notify s.mBarrier] else []),
       { s with mNumDependencies := cDoneState, mBarrier := cBarrierDoneState }) := by
    simp [JobState.Execute, h0]
  refine ⟨by rw [hExec], hb, by rw [hExec], by rw [hExec], ?_⟩
  rw [hExec]
  by_cases hb0 : s.mBarrier = 0 <;> simp [hb0, hb]

theorem claim_C2_witness :
    (mkJob 0).Execute.2.1 =
      [Ev.payloadRun, Ev.freeze (mkJob 0).mBarrier, Ev.markDone]
        ++ (if (mkJob 0).mBarrier ≠ 0 then [Ev.notify (mkJob 0).mBarrier] else [])
    ∧ (mkJob 0).mBarrier ≠ cBarrierDoneState
    ∧ (mkJob 0).Execute.2.2.mNumDependencies = cDoneState
    ∧ (mkJob 0).Execute.2.2.mBarrier = cBarrierDoneState
    ∧ ((∃ b, Ev.notify b ∈ (mkJob 0).Execute.2.1) ↔
        ((mkJob 0).mBarrier ≠ 0 ∧ (mkJob 0).mBarrier ≠ cBarrierDoneState)) :=
  claim_C2 0 [] (mkJob 0) (by decide) (Trace.refl _) (by decide)

/-- Claim C3: across every atomic operation, the dependency counter either
stays unchanged or makes one of the transitions N to N - k for numeric
N > 0 with k ≤ N an integer (k negative being AddDependency, the result
staying a numeric count), 0 to cExecutingState, or cExecutingState to
cDoneState; and once the counter is cDoneState or cExecutingState no
operation moves it back to a numeric count. -/
theorem claim_C3 {s s1 : JobState} {op : JOp} {evs : List Ev}
    (hstep : Step s op evs s1) :
    (s1.mNumDependencies = s.mNumDependencies
      ∨ (0 < s.mNumDependencies ∧ s.mNumDependencies < cDoneState
          ∧ s1.mNumDependencies < cDoneState
          ∧ ∃ k : ℤ, k ≤ (s.mNumDependencies : ℤ)
              ∧ (s1.mNumDependencies : ℤ) = (s.mNumDependencies : ℤ) - k)
      ∨ (s.mNumDependencies = 0 ∧ s1.mNumDependencies = cExecutingState)
      ∨ (s.mNumDependencies = cExecutingState ∧ s1.mNumDependencies = cDoneState))
    ∧ ((s.mNumDependencies = cExecutingState ∨ s.mNumDependencies = cDoneState) →
        s1.mNumDependencies = s.mNumDependencies
          ∨ (s.mNumDependencies = cExecutingState
              ∧ s1.mNumDependencies = cDoneState)) := by
  cases hstep with
  | execEnterOk h =>
      refine ⟨Or.inr (Or.inr (Or.inl ⟨h, rfl⟩)), fun hc => ?_⟩
      exfalso
      rw [h] at hc
      simp only [cExecutingState, cDoneState] at hc
      omega
  | execEnterFail h => exact ⟨Or.inl rfl, fun _ => Or.inl rfl⟩
  | execFreeze h => exact ⟨Or.inl rfl, fun _ => Or.inl rfl⟩
  | execMarkDone h =>
      by_cases he : s.mNumDependencies = cExecutingState
      · refine ⟨Or.inr (Or.inr (Or.inr ⟨he, ?_⟩)), fun _ => Or.inr ⟨he, ?_⟩⟩ <;>
          simp [he]
      · refine ⟨Or.inl ?_, fun _ => Or.inl ?_⟩ <;> simp [he]
  | execNotify h => exact ⟨Or.inl rfl, fun _ => Or.inl rfl⟩
  | setBarrierOk hb0 hbd h => exact ⟨Or.inl rfl, fun _ => Or.inl rfl⟩
  | setBarrierFail hb0 hbd h => exact ⟨Or.inl rfl, fun _ => Or.inl rfl⟩
  | addDep hpos hlt =>
      rename_i n
      refine ⟨Or.inr (Or.inl ⟨hpos, by
          simp only [cDoneState] at hlt ⊢; omega, ?_, ⟨-(n : ℤ), ?_, ?_⟩⟩),
        fun hc => ?_⟩
      · exact hlt
      · have : (0 : ℤ) ≤ (s.mNumDependencies : ℤ) := Int.ofNat_nonneg _
        omega
      · show ((s.mNumDependencies + n : Nat) : ℤ)
            = (s.mNumDependencies : ℤ) - -(n : ℤ)
        push_cast
        ring
      · exfalso
        simp only [cExecutingState, cDoneState] at hc hlt
        omega
  | removeDep hn hle hlt =>
      rename_i n
      refine ⟨Or.inr (Or.inl ⟨by omega, hlt, ?_, ⟨(n : ℤ), ?_, ?_⟩⟩),
        fun hc => ?_⟩
      · show s.mNumDependencies - n < cDoneState
        omega
      · exact_mod_cast hle
      · show ((s.mNumDependencies - n : Nat) : ℤ)
            = (s.mNumDependencies : ℤ) - (n : ℤ)
        omega
      · exfalso
        simp only [cExecutingState, cDoneState] at hc hlt
        omega

theorem claim_C3_witness :
    Step ⟨2, 0, 0, ExecPhase.idle⟩ (JOp.removeDependency 1) [] ⟨1, 0, 0, ExecPhase.idle⟩
    ∧ (((1 : Nat) = 2
        ∨ (0 < (2 : Nat) ∧ 2 < cDoneState ∧ 1 < cDoneState
            ∧ ∃ k : ℤ, k ≤ ((2 : Nat) : ℤ) ∧ (((1 : Nat) : ℤ) = ((2 : Nat) : ℤ) - k))
        ∨ ((2 : Nat) = 0 ∧ (1 : Nat) = cExecutingState)
        ∨ ((2 : Nat) = cExecutingState ∧ (1 : Nat) = cDoneState))
      ∧ (((2 : Nat) = cExecutingState ∨ (2 : Nat) = cDoneState) →
          (1 : Nat) = 2 ∨ ((2 : Nat) = cExecutingState ∧ (1 : Nat) = cDoneState))) := by
  have hstep : Step ⟨2, 0, 0, ExecPhase.idle⟩ (JOp.removeDependency 1) []
      ⟨1, 0, 0, ExecPhase.idle⟩ :=
    Step.removeDep (by decide) (by decide) (by decide)
  exact ⟨hstep, claim_C3 hstep⟩

/-- Claim C4: SetBarrier returns true and stores its argument exactly when the
barrier slot was 0 at the compare-and-swap; if the slot is cBarrierDoneState
it returns false and leaves the state unchanged; and once the slot holds
cBarrierDoneState no operation ever changes it again. -/
theorem claim_C4 :
    (∀ (s : JobState) (b : Nat),
      ((s.SetBarrier b).1 = true ↔ s.mBarrier = 0)
      ∧ ((s.SetBarrier b).1 = true → (s.SetBarrier b).2.mBarrier = b)
      ∧ (s.mBarrier = cBarrierDoneState →
          (s.SetBarrier b).1 = false ∧ (s.SetBarrier b).2 = s))
    ∧ (∀ (s s1 : JobState) (tr : List Ev), Trace s tr s1 →
        s.mBarrier = cBarrierDoneState → s1.mBarrier = cBarrierDoneState) := by
  have hbdne : cBarrierDoneState ≠ 0 := cBarrierDoneState_ne_zero
  constructor
  · intro s b
    refine ⟨?_, ?_, ?_⟩
    · unfold JobState.SetBarrier
      split <;> simp_all
    · unfold JobState.SetBarrier
      split <;> simp_all
    · intro hbd
      have hne : ¬ s.mBarrier = 0 := by rw [hbd]; exact hbdne
      unfold JobState.SetBarrier
      simp [hne]
  · intro s s1 tr htr hbd
    induction htr with
    | refl s => exact hbd
    | step hstep htl ih =>
        refine ih ?_
        cases hstep <;> simp_all

theorem claim_C4_witness :
    (((⟨0, cBarrierDoneState, 0, ExecPhase.idle⟩ : JobState).SetBarrier 5).1 = false
        ∧ ((⟨0, cBarrierDoneState, 0, ExecPhase.idle⟩ : JobState).SetBarrier 5).2
            = ⟨0, cBarrierDoneState, 0, ExecPhase.idle⟩)
    ∧ (⟨cExecutingState, cBarrierDoneState, 0, ExecPhase.ranPayload⟩ : JobState).mBarrier
        = cBarrierDoneState := by
  refine ⟨(claim_C4.1 ⟨0, cBarrierDoneState, 0, ExecPhase.idle⟩ 5).2.2 rfl, ?_⟩
  exact claim_C4.2 ⟨0, cBarrierDoneState, 0, ExecPhase.idle⟩
    ⟨cExecutingState, cBarrierDoneState, 0, ExecPhase.ranPayload⟩ [Ev.payloadRun]
    (Trace.step (Step.execEnterOk rfl) (Trace.refl _)) rfl

theorem removeDependencyFn_eval {d n : Nat} (h2 : n ≤ d) (h3 : d < 2 ^ 32) :
    removeDependencyFn d n = ((d - n == 0), d - n) := by
  have hn32 : n < 2 ^ 32 := lt_of_le_of_lt h2 h3
  have hmod : n % 2 ^ 32 = n := Nat.mod_eq_of_lt hn32
  have key : (d + (2 ^ 32 - n % 2 ^ 32)) % 2 ^ 32 = d - n := by
    rw [hmod]
    have h4 : d + (2 ^ 32 - n) = 2 ^ 32 + (d - n) := by omega
    rw [h4, Nat.add_mod_left]
    exact Nat.mod_eq_of_lt (by omega)
  have key2 : (d + (4294967296 - n % 4294967296)) % 4294967296 = d - n := by
    norm_num at key
    exact key
  simp [removeDependencyFn, key2]

theorem runRemoveCalls_enqueues : ∀ (ns : List Nat) (d : Nat),
    validRemoveCalls d ns = true →
    (runRemoveCalls d ns).2
      = if (runRemoveCalls d ns).1 = 0 ∧ ns ≠ [] then 1 else 0 := by
  intro ns
  induction ns with
  | nil => intro d hv; simp [runRemoveCalls]
  | cons n t ih =>
      intro d hv
      simp only [validRemoveCalls, Bool.and_eq_true, decide_eq_true_eq] at hv
      obtain ⟨⟨⟨hn, hle⟩, hd⟩, hvt⟩ := hv
      have h32 : d < 2 ^ 32 := lt_trans hd cDoneState_lt_two32
      have heval := removeDependencyFn_eval hle h32
      by_cases hz : d - n = 0
      · cases t with
        | nil => simp [runRemoveCalls, heval, hz]
        | cons m t2 =>
            rw [hz] at hvt
            simp only [validRemoveCalls, Bool.and_eq_true, decide_eq_true_eq] at hvt
            omega
      · have ih2 := ih (d - n) hvt
        cases t with
        | nil => simp [runRemoveCalls, heval, hz]
        | cons m t2 =>
            simp only [runRemoveCalls, heval] at ih2 ⊢
            simp only [List.ne_cons_self, ne_eq, reduceCtorEq] at ih2 ⊢
            simp [hz, ih2]

/-- Claim C5: RemoveDependency atomically subtracts its argument from the
dependency counter, and in a serialized sequence of valid calls exactly the
one call whose resulting value is zero reports the job runnable (the enqueue
count of the run is 1 exactly when the final counter is 0 and at least one
call was made, 0 otherwise); a call reports runnable if and only if its
resulting value is zero, so every call whose resulting value is nonzero
performs no scheduling action. -/
theorem claim_C5 (d : Nat) (ns : List Nat) (hv : validRemoveCalls d ns = true) :
    ((runRemoveCalls d ns).2
        = if (runRemoveCalls d ns).1 = 0 ∧ ns ≠ [] then 1 else 0)
    ∧ ∀ d0 n0, ((removeDependencyFn d0 n0).1 = true ↔ (removeDependencyFn d0 n0).2 = 0) := by
  refine ⟨runRemoveCalls_enqueues ns d hv, ?_⟩
  intro d0 n0
  simp [removeDependencyFn]

theorem claim_C5_witness :
    (runRemoveCalls 2 [1, 1]).2 = 1 ∧ (runRemoveCalls 2 [1, 1]).1 = 0 := by
  have h := (claim_C5 2 [1, 1] (by decide)).1
  exact ⟨by rw [h]; decide, by decide⟩

theorem runRefOps_cons_addRef (c f : Nat) (t : List RefOp) :
    runRefOps c f (RefOp.addRef :: t) = runRefOps ((c + 1) % 2 ^ 32) f t := by
  simp only [runRefOps, List.foldl_cons]
  simp [refStep]

theorem runRefOps_cons_release (c f : Nat) (t : List RefOp) :
    runRefOps c f (RefOp.release :: t)
      = runRefOps ((c + (2 ^ 32 - 1)) % 2 ^ 32)
          (if (c + (2 ^ 32 - 1)) % 2 ^ 32 = 0 then f + 1 else f) t := by
  simp only [runRefOps, List.foldl_cons]
  simp [refStep]

theorem runRefOps_append (c f : Nat) (l1 l2 : List RefOp) :
    runRefOps c f (l1 ++ l2)
      = runRefOps (runRefOps c f l1).1 (runRefOps c f l1).2 l2 := by
  simp [runRefOps, List.foldl_append]

theorem runRefOps_fst : ∀ (l : List RefOp) (c f : Nat), c < 2 ^ 32 →
    (runRefOps c f l).1
      = (c + l.count RefOp.addRef + (2 ^ 32 - 1) * l.count RefOp.release) % 2 ^ 32 := by
  intro l
  induction l with
  | nil =>
      intro c f hc
      simp [runRefOps]
      omega
  | cons a t ih =>
      intro c f hc
      have hMpos : 0 < 2 ^ 32 := by norm_num
      cases a with
      | addRef =>
          rw [runRefOps_cons_addRef, ih _ _ (Nat.mod_lt _ hMpos)]
          rw [Nat.add_assoc, Nat.mod_add_mod]
          simp only [List.count_cons, beq_self_eq_true, if_true, reduceCtorEq,
            beq_iff_eq, if_false]
          congr 1
          ring
      | release =>
          rw [runRefOps_cons_release, ih _ _ (Nat.mod_lt _ hMpos)]
          rw [Nat.add_assoc, Nat.mod_add_mod]
          simp only [List.count_cons, beq_self_eq_true, if_true, reduceCtorEq,
            beq_iff_eq, if_false]
          congr 1
          ring

theorem runRefOps_frees_zero : ∀ l : List RefOp,
    (∀ i, 0 < i → i ≤ l.length → (runRefOps 0 0 (l.take i)).1 ≠ 0) →
    (runRefOps 0 0 l).2 = 0 := by
  intro l
  induction l using List.reverseRecOn with
  | nil => intro h; rfl
  | append_singleton init op ih =>
      intro h
      have hinit : ∀ i, 0 < i → i ≤ init.length →
          (runRefOps 0 0 (init.take i)).1 ≠ 0 := by
        intro i hi hlen
        have h2 := h i hi (by simp; omega)
        rwa [List.take_append_of_le_length hlen] at h2
      have hf := ih hinit
      rw [runRefOps_append, hf]
      cases op with
      | addRef =>
          show (runRefOps (runRefOps 0 0 init).1 0 [RefOp.addRef]).2 = 0
          simp only [runRefOps, List.foldl_cons, List.foldl_nil]
          simp [refStep]
      | release =>
          have hfull := h (init.length + 1) (by omega) (by simp)
          have hlen : (init ++ [RefOp.release]).take (init.length + 1)
              = init ++ [RefOp.release] := by
            rw [show init.length + 1 = (init ++ [RefOp.release]).length by simp]
            exact List.take_length _
          rw [hlen, runRefOps_append, hf] at hfull
          have hfst : (runRefOps (runRefOps 0 0 init).1 0 [RefOp.release]).1
              = ((runRefOps 0 0 init).1 + (2 ^ 32 - 1)) % 2 ^ 32 := by
            simp only [runRefOps, List.foldl_cons, List.foldl_nil]
            simp [refStep]
          have hsnd : (runRefOps (runRefOps 0 0 init).1 0 [RefOp.release]).2
              = if ((runRefOps 0 0 init).1 + (2 ^ 32 - 1)) % 2 ^ 32 = 0
                then 1 else 0 := by
            simp only [runRefOps, List.foldl_cons, List.foldl_nil]
            simp [refStep]
          rw [hfst] at hfull
          rw [hsnd, if_neg hfull]

theorem runRefOps_single_release_fst (X : Nat) :
    (runRefOps X 0 [RefOp.release]).1 = (X + (2 ^ 32 - 1)) % 2 ^ 32 := by
  simp only [runRefOps, List.foldl_cons, List.foldl_nil]
  simp [refStep]

theorem runRefOps_single_release_snd (X : Nat) :
    (runRefOps X 0 [RefOp.release]).2
      = if (X + (2 ^ 32 - 1)) % 2 ^ 32 = 0 then 1 else 0 := by
  simp only [runRefOps, List.foldl_cons, List.foldl_nil]
  simp [refStep]

/-- Claim C7: for every K at least 1, performing K AddRef calls and K Release
calls on a job, serialized in any order in which every Release matches an
earlier AddRef and the reference count is nonzero at every proper intermediate
point, results in FreeJob being called exactly once, namely by the final
Release call, which brings the count to zero; no other Release calls FreeJob
(the run over every proper prefix performs zero FreeJob calls). -/
theorem claim_C7 (K : Nat) (ops : List RefOp)
    (hK : 1 ≤ K)
    (ha : ops.count RefOp.addRef = K)
    (hr : ops.count RefOp.release = K)
    (hpre : ∀ i, i ≤ ops.length →
      (ops.take i).count RefOp.release ≤ (ops.take i).count RefOp.addRef)
    (hnz : ∀ i, 0 < i → i < ops.length → (runRefOps 0 0 (ops.take i)).1 ≠ 0) :
    runRefOps 0 0 ops = (0, 1)
    ∧ ops.getLast? = some RefOp.release
    ∧ (runRefOps 0 0 ops.dropLast).2 = 0 := by
  obtain hnil | ⟨init, last, rfl⟩ := ops.eq_nil_or_concat'
  · exfalso
    subst hnil
    simp at ha
    omega
  · cases last with
    | addRef =>
        exfalso
        have h1 := hpre init.length (by simp)
        rw [List.take_append_of_le_length (le_refl init.length),
          List.take_length] at h1
        simp [List.count_append] at ha hr
        omega
    | release =>
        have hc0 : (runRefOps 0 0 (init ++ [RefOp.release])).1 = 0 := by
          rw [runRefOps_fst _ 0 0 (by norm_num), ha, hr]
          have hle : K ≤ 2 ^ 32 * K := Nat.le_mul_of_pos_left K (by norm_num)
          have hsum : 0 + K + (2 ^ 32 - 1) * K = 2 ^ 32 * K := by
            rw [Nat.sub_mul, one_mul]
            omega
          rw [hsum, Nat.mul_mod_right]
        have hdz : (runRefOps 0 0 init).2 = 0 := by
          apply runRefOps_frees_zero
          intro i hi hlen
          have h2 := hnz i hi (by simp; omega)
          rwa [List.take_append_of_le_length hlen] at h2
        have hc1 : ((runRefOps 0 0 init).1 + (2 ^ 32 - 1)) % 2 ^ 32 = 0 := by
          rw [runRefOps_append, hdz, runRefOps_single_release_fst] at hc0
          exact hc0
        have hsnd : (runRefOps 0 0 (init ++ [RefOp.release])).2 = 1 := by
          rw [runRefOps_append, hdz, runRefOps_single_release_snd, if_pos hc1]
        refine ⟨?_, by simp, ?_⟩
        · have hfst : (runRefOps 0 0 (init ++ [RefOp.release])).1 = 0 := by
            rw [runRefOps_append, hdz, runRefOps_single_release_fst]
            exact hc1
          exact Prod.ext hfst hsnd
        · rw [show (init ++ [RefOp.release]).dropLast = init by simp]
          exact hdz

theorem claim_C7_witness :
    runRefOps 0 0 [RefOp.addRef, RefOp.addRef, RefOp.release, RefOp.release] = (0, 1)
    ∧ [RefOp.addRef, RefOp.addRef, RefOp.release, RefOp.release].getLast?
        = some RefOp.release
    ∧ (runRefOps 0 0
        [RefOp.addRef, RefOp.addRef, RefOp.release, RefOp.release].dropLast).2 = 0 :=
  claim_C7 2 [RefOp.addRef, RefOp.addRef, RefOp.release, RefOp.release]
    (by decide) (by decide) (by decide)
    (by decide)
    (by
      intro i hi hlt
      simp only [List.length_cons, List.length_nil] at hlt
      interval_cases i <;> decide)

/-- Invariant of the lifecycle protocol: while a job sits in the queue or is
being executed, the scheduler collaborator holds its reference. -/
def LInv (s : LifeState) : Prop :=
  (s.phase = LPhase.queued → s.queueRef = true)
  ∧ (s.phase = LPhase.executing → s.queueRef = true)

theorem lifeInit_inv (n : Nat) : LInv (lifeInit n) := by
  by_cases hn : n = 0 <;> simp [lifeInit, LInv, hn]

theorem lstep_inv {s s1 : LifeState} {evs : List LEv} (hstep : LStep s evs s1)
    (hinv : LInv s) : LInv s1 := by
  obtain ⟨ph, hd, q⟩ := s
  cases hstep with
  | copyHandle h => exact hinv
  | releaseHandle h hw => exact hinv
  | removeDep hp h1 h2 hh =>
      rename_i n k
      by_cases hz : n - k = 0 <;> simp [LInv, hz]
  | startExec h => simp_all [LInv]
  | finishExec h => simp_all [LInv]
  | workerRelease h hq => simp_all [LInv]

theorem ltrace_inv {s s2 : LifeState} {tr : List LEv}
    (htr : LTrace s tr s2) (hinv : LInv s) : LInv s2 := by
  induction htr with
  | refl s => exact hinv
  | step hstep htl ih => exact ih (lstep_inv hstep hinv)

/-- Claim C6: FreeJob is invoked only on a job whose lifecycle has reached the
done phase: in every execution of the lifecycle protocol reachable from job
creation, any step that emits a FreeJob event (the reference count reaching
zero inside Release) happens with the job already done. -/
theorem claim_C6 (n : Nat) (tr evs : List LEv) (s s1 : LifeState)
    (htr : LTrace (lifeInit n) tr s) (hstep : LStep s evs s1)
    (hfree : LEv.freeJob ∈ evs) : s1.phase = LPhase.done := by
  have hinv : LInv s := ltrace_inv htr (lifeInit_inv n)
  obtain ⟨ph, hd, q⟩ := s
  cases hstep with
  | copyHandle h => simp at hfree
  | releaseHandle h hw =>
      split at hfree
      · rename_i hc
        simp only [refCount] at hc
        cases ph with
        | waiting m =>
            exfalso
            have h2 : 2 ≤ hd := hw m rfl
            cases q <;> simp at hc
            omega
        | queued =>
            exfalso
            have hq : q = true := hinv.1 rfl
            subst hq
            simp at hc
        | executing =>
            exfalso
            have hq : q = true := hinv.2 rfl
            subst hq
            simp at hc
        | done => rfl
      · simp at hfree
  | removeDep hp h1 h2 hh => split at hfree <;> simp at hfree
  | startExec h => simp at hfree
  | finishExec h => simp at hfree
  | workerRelease h hq => exact h

theorem claim_C6_witness :
    (⟨LPhase.done, 0, false⟩ : LifeState).phase = LPhase.done := by
  have h1 : LStep ⟨LPhase.queued, 1, true⟩ [] ⟨LPhase.executing, 1, true⟩ :=
    LStep.startExec rfl
  have h2 : LStep ⟨LPhase.executing, 1, true⟩ [] ⟨LPhase.done, 1, true⟩ :=
    LStep.finishExec rfl
  have h3 : LStep ⟨LPhase.done, 1, true⟩ [] ⟨LPhase.done, 0, true⟩ := by
    have h := LStep.releaseHandle (s := ⟨LPhase.done, 1, true⟩) (by decide)
      (fun m hm => by simp at hm)
    simpa [refCount] using h
  have htr : LTrace (lifeInit 0) ([] ++ ([] ++ ([] ++ [])))
      ⟨LPhase.done, 0, true⟩ :=
    LTrace.step h1 (LTrace.step h2 (LTrace.step h3 (LTrace.refl _)))
  have h4 : LStep ⟨LPhase.done, 0, true⟩ [LEv.freeJob] ⟨LPhase.done, 0, false⟩ := by
    have h := LStep.workerRelease (s := ⟨LPhase.done, 0, true⟩) rfl rfl
    simpa using h
  exact claim_C6 0 _ _ _ _ htr h4 (by simp)

/-- Claim C8: when Execute is called on a job whose dependency counter is not
exactly 0 (a positive count or one of the sentinels), it returns the counter
value it observed and changes nothing: the counter, barrier slot and
reference count are unchanged (the whole state is returned as it was) and the
payload is not invoked (no events are emitted). -/
theorem claim_C8 (s : JobState) (h : s.mNumDependencies ≠ 0) :
    s.Execute = (s.mNumDependencies, [], s) := by
  simp [JobState.Execute, h]

theorem claim_C8_witness :
    (mkJob 3).Execute = ((mkJob 3).mNumDependencies, [], mkJob 3) :=
  claim_C8 (mkJob 3) (by decide)

/-- Claim C9: the execution state is multiplexed onto the 32-bit dependency
counter using the ordinary values 0xe0e0e0e0 (cExecutingState) and 0xd0d0d0d0
(cDoneState), the constructor reducing its argument mod 2 ^ 32; IsDone,
CanBeExecuted and Execute classify the state purely by equality with these
constants, so the tests are correct only for jobs whose numeric dependency
count stays strictly below 0xd0d0d0d0: a genuine count equal to a sentinel is
misclassified, e.g. IsDone returns true on a never-run job constructed with
count 0xd0d0d0d0, and Execute on it returns as if the job were already done. -/
theorem claim_C9 (n : Nat) (hn : n < cDoneState) :
    cExecutingState = 0xe0e0e0e0
    ∧ cDoneState = 0xd0d0d0d0
    ∧ (mkJob n).mNumDependencies = n
    ∧ (mkJob n).IsDone = false
    ∧ ((mkJob n).CanBeExecuted = true ↔ n = 0)
    ∧ (mkJob cDoneState).IsDone = true
    ∧ (mkJob cDoneState).Execute = (cDoneState, [], mkJob cDoneState)
    ∧ (mkJob cExecutingState).CanBeExecuted = false := by
  have h32 : n % 4294967296 = n :=
    Nat.mod_eq_of_lt (lt_trans hn cDoneState_lt_two32)
  refine ⟨rfl, rfl, h32, ?_, ?_, by decide, by decide, by decide⟩
  · have hn2 : n ≠ cDoneState := Nat.ne_of_lt hn
    simp [JobState.IsDone, mkJob, h32, hn2]
  · simp [JobState.CanBeExecuted, mkJob, h32]

theorem claim_C9_witness :
    cExecutingState = 0xe0e0e0e0
    ∧ cDoneState = 0xd0d0d0d0
    ∧ (mkJob 7).mNumDependencies = 7
    ∧ (mkJob 7).IsDone = false
    ∧ ((mkJob 7).CanBeExecuted = true ↔ 7 = 0)
    ∧ (mkJob cDoneState).IsDone = true
    ∧ (mkJob cDoneState).Execute = (cDoneState, [], mkJob cDoneState)
    ∧ (mkJob cExecutingState).CanBeExecuted = false :=
  claim_C9 7 (by decide)

/-- Claim C10: on an empty JobHandle, IsValid and IsDone return false without
dereferencing anything (IsDone short-circuits on the null check), whereas
AddDependency and RemoveDependency dereference the contained job
unconditionally, hitting the null pointer (modelled as none) on an empty
handle; on a non-empty handle their null branch is unreachable (the result is
always some), and IsDone on a non-empty handle is exactly the wrapped job's
IsDone. -/
theorem claim_C10 :
    JobHandle.IsValid none = false
    ∧ JobHandle.IsDone none = false
    ∧ (∀ n : Nat, JobHandle.AddDependency none n = none)
    ∧ (∀ n : Nat, JobHandle.RemoveDependency none n = none)
    ∧ (∀ (j : JobState) (n : Nat), (JobHandle.AddDependency (some j) n).isSome = true)
    ∧ (∀ (j : JobState) (n : Nat),
        (JobHandle.RemoveDependency (some j) n).isSome = true)
    ∧ (∀ j : JobState, JobHandle.IsDone (some j) = j.IsDone)
    ∧ (∀ j : JobState, JobHandle.IsValid (some j) = true) :=
  ⟨rfl, rfl, fun _ => rfl, fun _ => rfl, fun _ _ => rfl, fun _ _ => rfl,
    fun _ => rfl, fun _ => rfl⟩
